import Mathlib

/-!
Shallow embedding of the concurrent acquisition engine of
`src/crx-crawler/crx-crawler.js` (class EnhancedCRXCrawler), covering the
per-item download orchestrator `downloadExtension`, the endpoint strategy
helpers `downloadFileDirectly` and `downloadViaDirectAPI`, and the batch
scheduler `processBatch` with its checkpoint bookkeeping.

External effects are modelled by explicit oracles: the filesystem is a map
from paths to the size of the file found there (`none` when `fs.stat`
throws), the network is the list of HTTP responses a request observes along
its redirect chain, and each strategy call's outcome is given per attempt.
-/

namespace CrxCrawler

/-- The four terminal statuses an item result can carry in the source:
`success`, `not_found`, `failed`, `skipped`. -/
inductive Status where
  | success
  | not_found
  | failed
  | skipped
deriving DecidableEq, Repr

/-- Minimum plausible artifact size in bytes. Both the existing-artifact
check (`stats.size > 1000`) and the post-transfer validation
(`stats.size < 1000`) use the literal 1000 in the source. -/
def minArtifactSize : Nat := 1000

/-- Deterministic artifact path for an identifier:
`path.join(this.downloadDir, extensionId + ".zip")`. -/
def expectedFile (downloadDir extensionId : String) : String :=
  downloadDir ++ "/" ++ extensionId ++ ".zip"

/-- Backoff delay before the retry that follows attempt number `attempt`:
`Math.min(5000 * attempt, 15000)`. -/
def retryDelay (attempt : Nat) : Nat :=
  min (5000 * attempt) 15000

/-- One HTTP response as observed by `downloadFileDirectly`: its status code,
the optional Location header, and the size of the body that piping the
response to disk would leave in the file. -/
structure HttpResponse where
  statusCode : Nat
  location : Option String
  bodySize : Nat
deriving DecidableEq, Repr

/-- Resolution of the `downloadFileDirectly` promise:
`resolve({success: true, filepath, size})` is modelled as `success`, every
`reject(...)` as `failure` with its message. -/
inductive DirectResult where
  | success (size : Nat)
  | failure (message : String)
deriving DecidableEq, Repr

/-- Whether a `DirectResult` is the resolved success case. -/
def DirectResult.isSuccess : DirectResult → Bool
  | .success _ => true
  | .failure _ => false

/-- `downloadFileDirectly(url, extensionId)`. The list holds the successive
responses the network returns along the redirect chain; the empty list models
a request error (`request.on('error')` or the timeout, both of which reject).
A response with `statusCode >= 300 && statusCode < 400` and a Location
header recurses on the redirect target; then any status other than 200
rejects; then a written file smaller than 1000 bytes rejects
(`Downloaded file too small`); otherwise the promise resolves with the
file's size. -/
def downloadFileDirectly : List HttpResponse → DirectResult
  | [] => .failure "request error"
  | resp :: rest =>
    if 300 ≤ resp.statusCode ∧ resp.statusCode < 400 ∧ resp.location.isSome then
      downloadFileDirectly rest
    else if resp.statusCode ≠ 200 then
      .failure ("HTTP " ++ toString resp.statusCode)
    else if resp.bodySize < minArtifactSize then
      .failure "Downloaded file too small"
    else
      .success resp.bodySize

/-- `downloadViaDirectAPI(extensionId)`: each element is the redirect chain
the network returns for one of the candidate API URLs; a rejection of
`downloadFileDirectly` is caught by the surrounding try/catch and the next
URL is tried; with no URL left the strategy reports failure. -/
def downloadViaDirectAPI : List (List HttpResponse) → DirectResult
  | [] => .failure "All direct API endpoints failed"
  | chain :: rest =>
    match downloadFileDirectly chain with
    | .success sz => .success sz
    | .failure _ => downloadViaDirectAPI rest

/-- Outcome of one strategy call as seen by the loop in `downloadExtension`:
a result with `success: true`, a result with `success: false`, or a thrown
error caught by the inner catch. -/
inductive StrategyOutcome where
  | success (size : Nat)
  | failure (message : String)
  | error (message : String)
deriving DecidableEq, Repr

/-- Environment of one `downloadExtension` call: either an exception escapes
the strategy loop (an infrastructure error reaching the outer catch), or the
call proceeds normally, observing a filesystem (path to size of the file
found there, `none` when `fs.stat` throws) and one outcome per configured
strategy, in chain order. -/
inductive AttemptBehavior where
  | throws (message : String)
  | normal (fs : String → Option Nat) (outcomes : List StrategyOutcome)

/-- The four outcome counters of `this.stats` read by `printProgress`. -/
structure RunStats where
  completed : Nat
  failed : Nat
  notFound : Nat
  skipped : Nat
deriving DecidableEq, Repr

/-- The per-identifier record returned by `downloadExtension`; fields the
source omits on a branch are `none`. -/
structure ItemResult where
  extensionId : String
  status : Status
  filepath : Option String
  size : Option Nat
deriving DecidableEq, Repr

/-- The existing-artifact check on a stat result: `fs.stat` succeeded and
`stats.size > 1000`. -/
def usableSize : Option Nat → Bool
  | some sz => minArtifactSize < sz
  | none => false

/-- Size delivered by the first succeeding strategy of the chain, `none`
when every strategy fails or throws. -/
def firstSuccess : List StrategyOutcome → Option Nat
  | [] => none
  | .success sz :: _ => some sz
  | .failure _ :: rest => firstSuccess rest
  | .error _ :: rest => firstSuccess rest

/-- Number of strategies the loop actually invokes: it returns at the first
success and otherwise tries the whole chain. -/
def strategiesInvoked : List StrategyOutcome → Nat
  | [] => 0
  | .success _ :: _ => 1
  | .failure _ :: rest => 1 + strategiesInvoked rest
  | .error _ :: rest => 1 + strategiesInvoked rest

/-- Result of one non-throwing `downloadExtension` call body: the returned
record, the updated counters, and the number of strategy calls made. -/
structure AttemptResult where
  result : ItemResult
  stats : RunStats
  invoked : Nat
deriving DecidableEq, Repr

/-- One call body of `downloadExtension` up to the outer catch: `none` when
an infrastructure error reaches the outer catch. Otherwise: the
existing-artifact check runs first and short-circuits to `skipped` with no
strategy call; then the strategy loop returns `success` at the first
succeeding strategy; exhaustion of the chain returns `not_found`. -/
def runAttempt (dir id : String) (b : AttemptBehavior) (stats : RunStats) :
    Option AttemptResult :=
  match b with
  | .throws _ => none
  | .normal fs outcomes =>
    let expected := expectedFile dir id
    if usableSize (fs expected) then
      some ⟨⟨id, .skipped, some expected, fs expected⟩,
            { stats with skipped := stats.skipped + 1 }, 0⟩
    else
      match firstSuccess outcomes with
      | some sz =>
          some ⟨⟨id, .success, some expected, some sz⟩,
                { stats with completed := stats.completed + 1 },
                strategiesInvoked outcomes⟩
      | none =>
          some ⟨⟨id, .not_found, none, none⟩,
                { stats with notFound := stats.notFound + 1 },
                strategiesInvoked outcomes⟩

/-- Terminal view of one `downloadExtension(extensionId)` cascade: the
returned record, the counters after it, the attempt number of the final
(terminal) call, and the number of strategy calls it made. -/
structure DownloadOutcome where
  result : ItemResult
  stats : RunStats
  finalAttempt : Nat
  strategyCalls : Nat
deriving DecidableEq, Repr

/-- The retry cascade of `downloadExtension`: the outer catch retries with
`attempt + 1` while `attempt < this.retryAttempts` and otherwise returns the
terminal `failed` record. The fuel argument bounds the depth of the source's
recursive self-call; starting it at `retryAttempts + 1` makes the fuel-zero
branch unreachable. -/
def downloadLoop (dir id : String) (retryAttempts : Nat)
    (behaviors : Nat → AttemptBehavior) :
    Nat → Nat → RunStats → DownloadOutcome
  | 0, attempt, stats =>
      ⟨⟨id, .failed, none, none⟩,
        { stats with failed := stats.failed + 1 }, attempt, 0⟩
  | fuel + 1, attempt, stats =>
      match runAttempt dir id (behaviors attempt) stats with
      | some r => ⟨r.result, r.stats, attempt, r.invoked⟩
      | none =>
          if attempt < retryAttempts then
            downloadLoop dir id retryAttempts behaviors fuel (attempt + 1) stats
          else
            ⟨⟨id, .failed, none, none⟩,
              { stats with failed := stats.failed + 1 }, attempt, 0⟩

/-- `downloadExtension(extensionId)` with its default argument `attempt = 1`. -/
def downloadExtension (dir id : String) (retryAttempts : Nat)
    (behaviors : Nat → AttemptBehavior) (stats : RunStats) : DownloadOutcome :=
  downloadLoop dir id retryAttempts behaviors (retryAttempts + 1) 1 stats

/-- Configuration options of the crawler used by the modelled core. -/
structure Config where
  downloadDir : String
  concurrency : Nat
  retryAttempts : Nat
  checkpointInterval : Nat
deriving DecidableEq, Repr

/-- The batch partition of `processBatch`:
`for (let i = 0; i < extensionIds.length; i += this.concurrency)` taking
`extensionIds.slice(i, i + this.concurrency)`. The source loop does not
terminate when the concurrency is 0; the model returns no batch there. -/
def makeBatches (c : Nat) : List String → List (List String)
  | [] => []
  | a :: rest =>
    if _h : c = 0 then []
    else (a :: rest).take c :: makeBatches c ((a :: rest).drop c)
termination_by ids => ids.length
decreasing_by
  simp only [List.length_drop, List.length_cons]
  omega

/-- Sequential model of one batch:
`Promise.all(batch.map(async extensionId => ...))`. Results keep the order
of `batch.map`, and every counter increment lands (increments commute, so
the sequential order is observationally the concurrent one). Returns the
batch results, the updated counters and the total number of strategy
calls. -/
def processItems (cfg : Config) (env : String → Nat → AttemptBehavior) :
    List String → RunStats → List ItemResult × RunStats × Nat
  | [], stats => ([], stats, 0)
  | id :: rest, stats =>
    let o := downloadExtension cfg.downloadDir id cfg.retryAttempts (env id) stats
    let step := processItems cfg env rest o.stats
    (o.result :: step.1, step.2.1, o.strategyCalls + step.2.2)

/-- Checkpoint decision after a batch:
`if (results.length - this.stats.lastCheckpoint >= this.checkpointInterval)`
then `saveCheckpoint` and `this.stats.lastCheckpoint = results.length`.
Returns the new marker and the new number of checkpoints written. -/
def checkpointUpdate (interval resultCount lastCheckpoint written : Nat) :
    Nat × Nat :=
  if interval ≤ resultCount - lastCheckpoint then (resultCount, written + 1)
  else (lastCheckpoint, written)

/-- Scheduler state threaded through the batch loop: the outcome counters,
the `lastCheckpoint` marker, the number of checkpoints persisted so far and
the total number of strategy calls issued (every network request of the
engine happens inside a strategy call). -/
structure BatchState where
  stats : RunStats
  lastCheckpoint : Nat
  checkpointsWritten : Nat
  strategyCalls : Nat
deriving DecidableEq, Repr

/-- The batch loop of `processBatch`: run each batch, append its results to
the accumulated list, then apply the checkpoint decision. -/
def processBatchesLoop (cfg : Config) (env : String → Nat → AttemptBehavior) :
    List (List String) → List ItemResult → BatchState →
      List ItemResult × BatchState
  | [], results, st => (results, st)
  | batch :: rest, results, st =>
    let step := processItems cfg env batch st.stats
    let results2 := results ++ step.1
    let cp := checkpointUpdate cfg.checkpointInterval results2.length
      st.lastCheckpoint st.checkpointsWritten
    processBatchesLoop cfg env rest results2
      ⟨step.2.1, cp.1, cp.2, st.strategyCalls + step.2.2⟩

/-- `processBatch(extensionIds)`. -/
def processBatch (cfg : Config) (env : String → Nat → AttemptBehavior)
    (ids : List String) (st : BatchState) : List ItemResult × BatchState :=
  processBatchesLoop cfg env (makeBatches cfg.concurrency ids) [] st

/-- The single counter `downloadExtension` increments for a given terminal
status. -/
def incrStatus (s : Status) (stats : RunStats) : RunStats :=
  match s with
  | .success => { stats with completed := stats.completed + 1 }
  | .failed => { stats with failed := stats.failed + 1 }
  | .not_found => { stats with notFound := stats.notFound + 1 }
  | .skipped => { stats with skipped := stats.skipped + 1 }

/-- Sum of the four terminal counters, as read by `printProgress`. -/
def totalProcessed (stats : RunStats) : Nat :=
  stats.completed + stats.failed + stats.notFound + stats.skipped

/-! Helper lemmas shared by the claim theorems. -/

theorem usableSize_eq_true {o : Option Nat} :
    usableSize o = true ↔ ∃ sz, o = some sz ∧ minArtifactSize < sz := by
  cases o with
  | none => simp [usableSize]
  | some sz => simp [usableSize]

theorem firstSuccess_eq_none (outcomes : List StrategyOutcome)
    (h : ∀ o ∈ outcomes, ∀ sz, o ≠ StrategyOutcome.success sz) :
    firstSuccess outcomes = none := by
  induction outcomes with
  | nil => rfl
  | cons o rest ih =>
    cases o with
    | success sz => exact absurd rfl (h _ (List.mem_cons_self _ _) sz)
    | failure m =>
      exact ih fun o' ho' => h o' (List.mem_cons_of_mem _ ho')
    | error m =>
      exact ih fun o' ho' => h o' (List.mem_cons_of_mem _ ho')

/-! C3: a resolved success of `downloadFileDirectly` carries at least the
minimum artifact size. -/

/-- C3: for every outcome resolved with success by `downloadFileDirectly`,
the recorded artifact size is at least the fixed minimum byte threshold;
a transfer whose resulting file is smaller than the threshold is rejected,
never resolved as a success. -/
theorem downloadFileDirectly_success_min_size :
    ∀ (resps : List HttpResponse) (sz : Nat),
      downloadFileDirectly resps = DirectResult.success sz →
      minArtifactSize ≤ sz := by
  intro resps
  induction resps with
  | nil => intro sz h; simp [downloadFileDirectly] at h
  | cons resp rest ih =>
    intro sz h
    rw [downloadFileDirectly] at h
    split at h
    · exact ih sz h
    · split at h
      · exact absurd h (by simp)
      · split at h
        · exact absurd h (by simp)
        · rename_i hsize
          cases h
          omega

/-- Witness for C3 at a concrete redirect chain ending in a 52341-byte
transfer. -/
theorem downloadFileDirectly_success_min_size_witness :
    downloadFileDirectly
        [⟨301, some "next", 0⟩, ⟨200, none, 52341⟩] =
      DirectResult.success 52341 ∧ minArtifactSize ≤ 52341 :=
  ⟨by decide, downloadFileDirectly_success_min_size
    [⟨301, some "next", 0⟩, ⟨200, none, 52341⟩] 52341 (by decide)⟩

/-! C5: the status-code convention of `downloadFileDirectly`. The source
accepts only status exactly 200, not the whole 2xx range, and follows a 3xx
only when a Location header is present. -/

/-- C5 counterexample: a final response with status 201 (a 2xx code) and an
ample body is rejected by `downloadFileDirectly`, refuting the claim that
every 2xx status yields success. -/
theorem downloadFileDirectly_rejects_non200_2xx :
    (200 ≤ 201 ∧ 201 < 300 ∧ minArtifactSize ≤ 50000) ∧
    (downloadFileDirectly [⟨201, none, 50000⟩]).isSuccess = false := by
  constructor
  · refine ⟨by omega, by omega, by decide⟩
  · decide

/-- C5 amended: a 3xx response with a Location header is followed
transparently; a final status of exactly 200 yields success subject to the
minimum-size check; any other final status — including 2xx codes other than
200 and 3xx responses without a Location header — is rejected, and the
rejection surfaces as a strategy failure in `downloadViaDirectAPI` rather
than an uncontrolled fault. -/
theorem downloadFileDirectly_status_convention (resp : HttpResponse)
    (rest : List HttpResponse) :
    (300 ≤ resp.statusCode → resp.statusCode < 400 → resp.location.isSome →
        downloadFileDirectly (resp :: rest) = downloadFileDirectly rest) ∧
    (resp.statusCode = 200 → minArtifactSize ≤ resp.bodySize →
        downloadFileDirectly (resp :: rest) =
          DirectResult.success resp.bodySize) ∧
    (resp.statusCode ≠ 200 →
      ¬(300 ≤ resp.statusCode ∧ resp.statusCode < 400 ∧
          resp.location.isSome) →
        (downloadFileDirectly (resp :: rest)).isSuccess = false) ∧
    (∀ chains : List (List HttpResponse),
      (∀ chain ∈ chains, (downloadFileDirectly chain).isSuccess = false) →
        downloadViaDirectAPI chains =
          DirectResult.failure "All direct API endpoints failed") := by
  refine ⟨?_, ?_, ?_, ?_⟩
  · intro h1 h2 h3
    rw [downloadFileDirectly]
    simp [h1, h2, h3]
  · intro h1 h2
    rw [downloadFileDirectly]
    have hred : ¬(300 ≤ resp.statusCode ∧ resp.statusCode < 400 ∧
        resp.location.isSome) := by
      rintro ⟨h3, -, -⟩; omega
    simp [hred, h1]
    omega
  · intro h1 h2
    rw [downloadFileDirectly]
    simp [h1, h2, DirectResult.isSuccess]
  · intro chains
    induction chains with
    | nil => intro _; rfl
    | cons chain restc ih =>
      intro h
      rw [downloadViaDirectAPI]
      cases hd : downloadFileDirectly chain with
      | success sz =>
        have := h chain (List.mem_cons_self _ _)
        rw [hd] at this
        simp [DirectResult.isSuccess] at this
      | failure m =>
        exact ih fun c hc => h c (List.mem_cons_of_mem _ hc)

/-- Witness for C5's amended theorem: a 302 redirect followed by a 200
response of 4000 bytes resolves with success. -/
theorem downloadFileDirectly_status_convention_witness :
    downloadFileDirectly [⟨302, some "u", 0⟩, ⟨200, none, 4000⟩] =
      DirectResult.success 4000 := by
  have h1 := (downloadFileDirectly_status_convention ⟨302, some "u", 0⟩
      [⟨200, none, 4000⟩]).1 (by decide) (by decide) (by decide)
  rw [h1]
  exact (downloadFileDirectly_status_convention ⟨200, none, 4000⟩ []).2.1
    rfl (by decide)

/-! C10: the two size thresholds disagree at the 1000-byte boundary. -/

/-- C10: a downloaded file of exactly 1000 bytes is accepted as a success by
`downloadFileDirectly` (only sizes strictly below 1000 are rejected), while
the existing-artifact check skips only files strictly larger than 1000
bytes; an identifier whose artifact is exactly 1000 bytes is therefore not
skipped on the next run and a strategy is invoked again. -/
theorem threshold_boundary_disagreement :
    downloadFileDirectly [⟨200, none, 1000⟩] = DirectResult.success 1000 ∧
    (downloadFileDirectly [⟨200, none, 999⟩]).isSuccess = false ∧
    usableSize (some 1000) = false ∧
    (downloadExtension "downloads" "idB" 3
        (fun _ => AttemptBehavior.normal (fun _ => some 1000)
          [StrategyOutcome.success 52341]) ⟨0, 0, 0, 0⟩).result.status =
      Status.success ∧
    (downloadExtension "downloads" "idB" 3
        (fun _ => AttemptBehavior.normal (fun _ => some 1000)
          [StrategyOutcome.success 52341]) ⟨0, 0, 0, 0⟩).strategyCalls = 1 := by
  refine ⟨by decide, by decide, by decide, by decide, by decide⟩

/-! C1: exhaustion of the strategy chain is classified `not_found` on the
first attempt and does not consume the retry budget. -/

/-- C1: when the first attempt reaches the strategy chain (no usable
existing artifact) and every strategy reports failure or throws,
`downloadExtension` returns `not_found` — never `failed` — terminally on
attempt 1, incrementing only the notFound counter; the outer retry budget
is untouched. -/
theorem downloadExtension_exhaustion_not_found (dir id : String)
    (retryAttempts : Nat) (behaviors : Nat → AttemptBehavior)
    (stats : RunStats) (fs : String → Option Nat)
    (outcomes : List StrategyOutcome)
    (hb : behaviors 1 = AttemptBehavior.normal fs outcomes)
    (hskip : usableSize (fs (expectedFile dir id)) = false)
    (hfail : ∀ o ∈ outcomes, ∀ sz, o ≠ StrategyOutcome.success sz) :
    (downloadExtension dir id retryAttempts behaviors stats).result.status =
        Status.not_found ∧
    (downloadExtension dir id retryAttempts behaviors stats).result.status ≠
        Status.failed ∧
    (downloadExtension dir id retryAttempts behaviors stats).finalAttempt = 1 ∧
    (downloadExtension dir id retryAttempts behaviors stats).stats =
      { stats with notFound := stats.notFound + 1 } ∧
    (downloadExtension dir id retryAttempts behaviors stats).stats.failed =
      stats.failed := by
  have hnone := firstSuccess_eq_none outcomes hfail
  simp [downloadExtension, downloadLoop, runAttempt, hb, hskip, hnone]

/-- Witness for C1: two strategies, one reporting failure and one throwing,
on a bare filesystem. -/
theorem downloadExtension_exhaustion_not_found_witness :
    (downloadExtension "downloads" "idC" 3
        (fun _ => AttemptBehavior.normal (fun _ => none)
          [StrategyOutcome.failure "404", StrategyOutcome.error "reset"])
        ⟨0, 0, 0, 0⟩).result.status = Status.not_found ∧
    (downloadExtension "downloads" "idC" 3
        (fun _ => AttemptBehavior.normal (fun _ => none)
          [StrategyOutcome.failure "404", StrategyOutcome.error "reset"])
        ⟨0, 0, 0, 0⟩).result.status ≠ Status.failed ∧
    (downloadExtension "downloads" "idC" 3
        (fun _ => AttemptBehavior.normal (fun _ => none)
          [StrategyOutcome.failure "404", StrategyOutcome.error "reset"])
        ⟨0, 0, 0, 0⟩).finalAttempt = 1 ∧
    (downloadExtension "downloads" "idC" 3
        (fun _ => AttemptBehavior.normal (fun _ => none)
          [StrategyOutcome.failure "404", StrategyOutcome.error "reset"])
        ⟨0, 0, 0, 0⟩).stats = { (⟨0, 0, 0, 0⟩ : RunStats) with notFound := 1 } ∧
    (downloadExtension "downloads" "idC" 3
        (fun _ => AttemptBehavior.normal (fun _ => none)
          [StrategyOutcome.failure "404", StrategyOutcome.error "reset"])
        ⟨0, 0, 0, 0⟩).stats.failed = 0 :=
  downloadExtension_exhaustion_not_found "downloads" "idC" 3 _ ⟨0, 0, 0, 0⟩
    (fun _ => none)
    [StrategyOutcome.failure "404", StrategyOutcome.error "reset"]
    rfl rfl (by rintro o ho sz rfl; simp at ho)

/-! C2: an identifier whose every attempt raises an infrastructure error is
retried up to the attempt ceiling and then marked `failed`. -/

theorem downloadLoop_all_throws (dir id : String) (retryAttempts : Nat)
    (behaviors : Nat → AttemptBehavior)
    (h : ∀ a, ∃ msg, behaviors a = AttemptBehavior.throws msg)
    (stats : RunStats) :
    ∀ fuel attempt, attempt ≤ retryAttempts → retryAttempts < attempt + fuel →
      downloadLoop dir id retryAttempts behaviors fuel attempt stats =
        ⟨⟨id, Status.failed, none, none⟩,
          { stats with failed := stats.failed + 1 }, retryAttempts, 0⟩ := by
  intro fuel
  induction fuel with
  | zero => intro attempt h1 h2; omega
  | succ n ih =>
    intro attempt h1 h2
    obtain ⟨msg, hmsg⟩ := h attempt
    rw [downloadLoop]
    simp only [runAttempt, hmsg]
    split
    · rename_i hlt
      exact ih (attempt + 1) (by omega) (by omega)
    · rename_i hge
      have : attempt = retryAttempts := by omega
      simp [this]

/-- C2: when every attempt raises an infrastructure error, the cascade makes
exactly `retryAttempts` calls — the attempt counter of the final call equals
`retryAttempts` — and returns the terminal `failed` record, incrementing the
failed counter once; the backoff delay is monotone in the attempt number and
capped at 15000 ms. -/
theorem downloadExtension_infra_error_retry_ceiling (dir id : String)
    (retryAttempts : Nat) (hra : 1 ≤ retryAttempts)
    (behaviors : Nat → AttemptBehavior)
    (h : ∀ a, ∃ msg, behaviors a = AttemptBehavior.throws msg)
    (stats : RunStats) :
    (downloadExtension dir id retryAttempts behaviors stats =
      ⟨⟨id, Status.failed, none, none⟩,
        { stats with failed := stats.failed + 1 }, retryAttempts, 0⟩) ∧
    (∀ a b : Nat, a ≤ b → retryDelay a ≤ retryDelay b) ∧
    (∀ a : Nat, retryDelay a ≤ 15000) := by
  refine ⟨?_, ?_, ?_⟩
  · exact downloadLoop_all_throws dir id retryAttempts behaviors h stats
      (retryAttempts + 1) 1 hra (by omega)
  · intro a b hab
    simp only [retryDelay]
    exact min_le_min (Nat.mul_le_mul_left _ hab) le_rfl
  · intro a
    simp only [retryDelay]
    exact min_le_right _ _

/-- Witness for C2: a two-attempt budget with a filesystem error on every
attempt ends `failed` at attempt 2. -/
theorem downloadExtension_infra_error_retry_ceiling_witness :
    (downloadExtension "downloads" "idD" 2
        (fun _ => AttemptBehavior.throws "ENOSPC") ⟨0, 0, 0, 0⟩ =
      ⟨⟨"idD", Status.failed, none, none⟩,
        { (⟨0, 0, 0, 0⟩ : RunStats) with failed := 1 }, 2, 0⟩) ∧
    (∀ a b : Nat, a ≤ b → retryDelay a ≤ retryDelay b) ∧
    (∀ a : Nat, retryDelay a ≤ 15000) :=
  downloadExtension_infra_error_retry_ceiling "downloads" "idD" 2
    (by decide) (fun _ => AttemptBehavior.throws "ENOSPC")
    (fun _ => ⟨"ENOSPC", rfl⟩) ⟨0, 0, 0, 0⟩

/-! C4: the existing-artifact check decides `skipped` before any strategy
call. -/

/-- C4: with a normal first attempt, `downloadExtension` returns `skipped`
iff the filesystem holds a file at the deterministic path for the identifier
whose size strictly exceeds the minimum-plausible-size threshold; in that
case it terminates on attempt 1 with zero strategy calls and reports that
path. -/
theorem downloadExtension_skip_iff_existing_artifact (dir id : String)
    (retryAttempts : Nat) (behaviors : Nat → AttemptBehavior)
    (stats : RunStats) (fs : String → Option Nat)
    (outcomes : List StrategyOutcome)
    (hb : behaviors 1 = AttemptBehavior.normal fs outcomes) :
    ((downloadExtension dir id retryAttempts behaviors stats).result.status =
        Status.skipped ↔
      ∃ sz, fs (expectedFile dir id) = some sz ∧ minArtifactSize < sz) ∧
    ((downloadExtension dir id retryAttempts behaviors stats).result.status =
        Status.skipped →
      (downloadExtension dir id retryAttempts behaviors stats).strategyCalls
          = 0 ∧
      (downloadExtension dir id retryAttempts behaviors stats).finalAttempt
          = 1 ∧
      (downloadExtension dir id retryAttempts behaviors stats).result.filepath
          = some (expectedFile dir id)) := by
  cases husable : usableSize (fs (expectedFile dir id)) with
  | true =>
    have hex := usableSize_eq_true.mp husable
    simp [downloadExtension, downloadLoop, runAttempt, hb, husable, hex]
  | false =>
    have hnex : ¬∃ sz, fs (expectedFile dir id) = some sz ∧
        minArtifactSize < sz := by
      intro hex
      rw [← usableSize_eq_true] at hex
      rw [husable] at hex
      exact Bool.false_ne_true hex
    cases hfs : firstSuccess outcomes with
    | some sz =>
      simp [downloadExtension, downloadLoop, runAttempt, hb, husable, hfs,
        hnex]
    | none =>
      simp [downloadExtension, downloadLoop, runAttempt, hb, husable, hfs,
        hnex]

/-- Witness for C4: a pre-seeded 4096-byte artifact makes the first attempt
skip with zero strategy calls. -/
theorem downloadExtension_skip_iff_existing_artifact_witness :
    (downloadExtension "downloads" "idE" 3
        (fun _ => AttemptBehavior.normal (fun _ => some 4096)
          [StrategyOutcome.success 52341]) ⟨0, 0, 0, 0⟩).result.status =
      Status.skipped ∧
    (downloadExtension "downloads" "idE" 3
        (fun _ => AttemptBehavior.normal (fun _ => some 4096)
          [StrategyOutcome.success 52341]) ⟨0, 0, 0, 0⟩).strategyCalls = 0 := by
  have h := downloadExtension_skip_iff_existing_artifact "downloads" "idE" 3
    (fun _ => AttemptBehavior.normal (fun _ => some 4096)
      [StrategyOutcome.success 52341]) ⟨0, 0, 0, 0⟩ (fun _ => some 4096)
    [StrategyOutcome.success 52341] rfl
  have hs := h.1.mpr ⟨4096, rfl, by decide⟩
  exact ⟨hs, (h.2 hs).1⟩

/-! C9: every cascade increments exactly one of the four counters, matching
the returned status. -/

theorem incrStatus_totalProcessed (s : Status) (stats : RunStats) :
    totalProcessed (incrStatus s stats) = totalProcessed stats + 1 := by
  cases s <;> simp [incrStatus, totalProcessed] <;> omega

theorem runAttempt_incr (dir id : String) (b : AttemptBehavior)
    (stats : RunStats) (r : AttemptResult)
    (h : runAttempt dir id b stats = some r) :
    r.stats = incrStatus r.result.status stats ∧
    r.result.extensionId = id := by
  cases b with
  | throws m => simp [runAttempt] at h
  | normal fs outs =>
    simp only [runAttempt] at h
    split at h
    · cases h
      simp [incrStatus]
    · split at h
      · cases h
        simp [incrStatus]
      · cases h
        simp [incrStatus]

theorem downloadLoop_incr (dir id : String) (retryAttempts : Nat)
    (behaviors : Nat → AttemptBehavior) :
    ∀ (fuel attempt : Nat) (stats : RunStats),
      (downloadLoop dir id retryAttempts behaviors fuel attempt stats).stats =
        incrStatus
          (downloadLoop dir id retryAttempts behaviors fuel attempt
            stats).result.status stats ∧
      (downloadLoop dir id retryAttempts behaviors fuel attempt
          stats).result.extensionId = id := by
  intro fuel
  induction fuel with
  | zero => intro attempt stats; simp [downloadLoop, incrStatus]
  | succ n ih =>
    intro attempt stats
    rw [downloadLoop]
    cases hr : runAttempt dir id (behaviors attempt) stats with
    | some r =>
      simp only [hr]
      simpa using runAttempt_incr dir id (behaviors attempt) stats r hr
    | none =>
      simp only [hr]
      split
      · exact ih (attempt + 1) stats
      · simp [incrStatus]

theorem downloadExtension_incr (dir id : String) (retryAttempts : Nat)
    (behaviors : Nat → AttemptBehavior) (stats : RunStats) :
    (downloadExtension dir id retryAttempts behaviors stats).stats =
      incrStatus
        (downloadExtension dir id retryAttempts behaviors
          stats).result.status stats ∧
    (downloadExtension dir id retryAttempts behaviors
        stats).result.extensionId = id :=
  downloadLoop_incr dir id retryAttempts behaviors (retryAttempts + 1) 1 stats

theorem processItems_spec (cfg : Config) (env : String → Nat → AttemptBehavior) :
    ∀ (ids : List String) (stats : RunStats),
      (processItems cfg env ids stats).1.map ItemResult.extensionId = ids ∧
      totalProcessed (processItems cfg env ids stats).2.1 =
        totalProcessed stats + ids.length := by
  intro ids
  induction ids with
  | nil => intro stats; simp [processItems]
  | cons id rest ih =>
    intro stats
    have hd := downloadExtension_incr cfg.downloadDir id cfg.retryAttempts
      (env id) stats
    simp only [processItems, List.map_cons, List.length_cons]
    refine ⟨?_, ?_⟩
    · rw [hd.2, (ih _).1]
    · rw [(ih _).2, hd.1, incrStatus_totalProcessed]
      omega

theorem processItems_length (cfg : Config)
    (env : String → Nat → AttemptBehavior) (ids : List String)
    (stats : RunStats) :
    (processItems cfg env ids stats).1.length = ids.length := by
  have := congrArg List.length (processItems_spec cfg env ids stats).1
  simpa using this

theorem makeBatches_flatten (c : Nat) (hc : c ≠ 0) (ids : List String) :
    (makeBatches c ids).flatten = ids := by
  have H : ∀ n (l : List String), l.length ≤ n →
      (makeBatches c l).flatten = l := by
    intro n
    induction n with
    | zero =>
      intro l hl
      cases l with
      | nil => simp [makeBatches]
      | cons a rest => simp at hl
    | succ m ih =>
      intro l hl
      cases l with
      | nil => simp [makeBatches]
      | cons a rest =>
        rw [makeBatches, dif_neg hc, List.flatten_cons]
        rw [ih ((a :: rest).drop c) (by simp at hl ⊢; omega)]
        exact List.take_append_drop c (a :: rest)
  exact H ids.length ids le_rfl

theorem processBatchesLoop_total (cfg : Config)
    (env : String → Nat → AttemptBehavior) :
    ∀ (batches : List (List String)) (acc : List ItemResult)
      (st : BatchState),
      totalProcessed (processBatchesLoop cfg env batches acc st).2.stats =
        totalProcessed st.stats + batches.flatten.length := by
  intro batches
  induction batches with
  | nil => intro acc st; simp [processBatchesLoop]
  | cons batch rest ih =>
    intro acc st
    simp only [processBatchesLoop]
    rw [ih]
    simp only [List.flatten_cons, List.length_append]
    rw [(processItems_spec cfg env batch st.stats).2]
    omega

/-- C9: a `downloadExtension` cascade updates the counters by incrementing
exactly the one that matches the status of the returned record; after
`processBatch` over n identifiers, the four counters have grown by n in
total. -/
theorem downloadExtension_counter_invariant (dir id : String)
    (retryAttempts : Nat) (behaviors : Nat → AttemptBehavior)
    (stats : RunStats) (cfg : Config)
    (env : String → Nat → AttemptBehavior) (ids : List String)
    (st : BatchState) (hc : 0 < cfg.concurrency) :
    ((downloadExtension dir id retryAttempts behaviors stats).stats =
      incrStatus
        (downloadExtension dir id retryAttempts behaviors
          stats).result.status stats) ∧
    totalProcessed (processBatch cfg env ids st).2.stats =
      totalProcessed st.stats + ids.length := by
  refine ⟨(downloadExtension_incr dir id retryAttempts behaviors stats).1, ?_⟩
  rw [processBatch, processBatchesLoop_total,
    makeBatches_flatten cfg.concurrency (by omega) ids]

/-- Witness for C9: two identifiers whose strategies fail raise the counter
total from 0 to 2. -/
theorem downloadExtension_counter_invariant_witness :
    ((downloadExtension "downloads" "idF" 3
        (fun _ => AttemptBehavior.throws "oops") ⟨0, 0, 0, 0⟩).stats =
      incrStatus
        (downloadExtension "downloads" "idF" 3
          (fun _ => AttemptBehavior.throws "oops")
          ⟨0, 0, 0, 0⟩).result.status ⟨0, 0, 0, 0⟩) ∧
    totalProcessed
        (processBatch ⟨"downloads", 2, 3, 100⟩
          (fun _ _ => AttemptBehavior.normal (fun _ => none) [])
          ["idG", "idH"] ⟨⟨0, 0, 0, 0⟩, 0, 0, 0⟩).2.stats =
      totalProcessed (⟨0, 0, 0, 0⟩ : RunStats) + 2 :=
  downloadExtension_counter_invariant "downloads" "idF" 3
    (fun _ => AttemptBehavior.throws "oops") ⟨0, 0, 0, 0⟩
    ⟨"downloads", 2, 3, 100⟩
    (fun _ _ => AttemptBehavior.normal (fun _ => none) [])
    ["idG", "idH"] ⟨⟨0, 0, 0, 0⟩, 0, 0, 0⟩ (by decide)

/-! C6: the batch partition and the one-result-per-identifier contract. -/

theorem makeBatches_sizes (c : Nat) (hc : c ≠ 0) (ids : List String) :
    ∀ b ∈ makeBatches c ids, b ≠ [] ∧ b.length ≤ c := by
  have H : ∀ n (l : List String), l.length ≤ n →
      ∀ b ∈ makeBatches c l, b ≠ [] ∧ b.length ≤ c := by
    intro n
    induction n with
    | zero =>
      intro l hl b hb
      cases l with
      | nil => simp [makeBatches] at hb
      | cons a rest => simp at hl
    | succ m ih =>
      intro l hl b hb
      cases l with
      | nil => simp [makeBatches] at hb
      | cons a rest =>
        rw [makeBatches, dif_neg hc] at hb
        rcases List.mem_cons.mp hb with h | h
        · subst h
          refine ⟨?_, ?_⟩
          · cases c with
            | zero => exact absurd rfl hc
            | succ k => simp [List.take_succ_cons]
          · rw [List.length_take]
            exact min_le_left _ _
        · exact ih _ (by simp at hl ⊢; omega) b h
  exact H ids.length ids le_rfl

theorem makeBatches_dropLast (c : Nat) (hc : c ≠ 0) (ids : List String) :
    ∀ b ∈ (makeBatches c ids).dropLast, b.length = c := by
  have H : ∀ n (l : List String), l.length ≤ n →
      ∀ b ∈ (makeBatches c l).dropLast, b.length = c := by
    intro n
    induction n with
    | zero =>
      intro l hl b hb
      cases l with
      | nil => simp [makeBatches] at hb
      | cons a rest => simp at hl
    | succ m ih =>
      intro l hl b hb
      cases l with
      | nil => simp [makeBatches] at hb
      | cons a rest =>
        rw [makeBatches, dif_neg hc] at hb
        cases hrest : makeBatches c ((a :: rest).drop c) with
        | nil => rw [hrest] at hb; simp at hb
        | cons b2 bs =>
          rw [hrest] at hb
          rw [show ((a :: rest).take c :: b2 :: bs).dropLast =
                (a :: rest).take c :: (b2 :: bs).dropLast from rfl] at hb
          rcases List.mem_cons.mp hb with h | h
          · subst h
            have hdrop : (a :: rest).drop c ≠ [] := by
              intro h0
              rw [h0] at hrest
              simp [makeBatches] at hrest
            have hpos : 0 < ((a :: rest).drop c).length :=
              List.length_pos.mpr hdrop
            rw [List.length_drop] at hpos
            rw [List.length_take]
            omega
          · have hih := ih ((a :: rest).drop c) (by simp at hl ⊢; omega) b
            rw [hrest] at hih
            exact hih h
  exact H ids.length ids le_rfl

theorem makeBatches_length (c : Nat) (hc : c ≠ 0) (ids : List String) :
    (makeBatches c ids).length = (ids.length + c - 1) / c := by
  have H : ∀ n (l : List String), l.length ≤ n →
      (makeBatches c l).length = (l.length + c - 1) / c := by
    intro n
    induction n with
    | zero =>
      intro l hl
      cases l with
      | nil => simp [makeBatches]; rw [Nat.div_eq_of_lt (by omega)]
      | cons a rest => simp at hl
    | succ m ih =>
      intro l hl
      cases l with
      | nil => simp [makeBatches]; rw [Nat.div_eq_of_lt (by omega)]
      | cons a rest =>
        rw [makeBatches, dif_neg hc]
        rw [List.length_cons, ih ((a :: rest).drop c) (by simp at hl ⊢; omega)]
        rw [List.length_drop]
        simp only [List.length_cons]
        rcases le_or_lt c (rest.length + 1) with hcle | hclt
        · have h1 : rest.length + 1 - c + c - 1 = rest.length := by omega
          have h2 : rest.length + 1 + c - 1 = rest.length + c := by omega
          rw [h1, h2, Nat.add_div_right _ (by omega)]
        · have h1 : rest.length + 1 - c = 0 := by omega
          have h2 : rest.length + 1 + c - 1 = rest.length + c := by omega
          rw [h1, h2, Nat.add_div_right _ (by omega)]
          rw [Nat.div_eq_of_lt (by omega), Nat.div_eq_of_lt (by omega)]
  exact H ids.length ids le_rfl

theorem processBatchesLoop_map (cfg : Config)
    (env : String → Nat → AttemptBehavior) :
    ∀ (batches : List (List String)) (acc : List ItemResult)
      (st : BatchState),
      (processBatchesLoop cfg env batches acc st).1.map
          ItemResult.extensionId =
        acc.map ItemResult.extensionId ++ batches.flatten := by
  intro batches
  induction batches with
  | nil => intro acc st; simp [processBatchesLoop]
  | cons batch rest ih =>
    intro acc st
    simp only [processBatchesLoop]
    rw [ih]
    simp only [List.map_append, List.flatten_cons]
    rw [(processItems_spec cfg env batch st.stats).1]
    simp [List.append_assoc]

/-- C6: with concurrency C > 0, `processBatch` partitions the input into
ceil(n/C) contiguous batches in input order, each of size C except a
possibly smaller nonempty final batch — with C = 2 over 5 identifiers three
batches of sizes 2, 2, 1 — and its result list carries exactly one result
per input identifier, in input order. -/
theorem processBatch_partition_and_results (C : Nat) (hC : 0 < C)
    (ids : List String) (cfg : Config)
    (env : String → Nat → AttemptBehavior) (st : BatchState)
    (hcfg : cfg.concurrency = C) :
    (makeBatches C ids).flatten = ids ∧
    (makeBatches C ids).length = (ids.length + C - 1) / C ∧
    (∀ b ∈ (makeBatches C ids).dropLast, b.length = C) ∧
    (∀ b ∈ makeBatches C ids, b ≠ [] ∧ b.length ≤ C) ∧
    ((makeBatches 2 ["a", "b", "c", "d", "e"]).map List.length =
      [2, 2, 1]) ∧
    (processBatch cfg env ids st).1.map ItemResult.extensionId = ids ∧
    (processBatch cfg env ids st).1.length = ids.length := by
  have hc : C ≠ 0 := by omega
  have hmap : (processBatch cfg env ids st).1.map ItemResult.extensionId =
      ids := by
    rw [processBatch, processBatchesLoop_map, hcfg,
      makeBatches_flatten C hc ids]
    simp
  refine ⟨makeBatches_flatten C hc ids, makeBatches_length C hc ids,
    makeBatches_dropLast C hc ids, makeBatches_sizes C hc ids,
    by simp [makeBatches], hmap, ?_⟩
  have := congrArg List.length hmap
  simpa using this

/-- Witness for C6 at concurrency 2 over three identifiers. -/
theorem processBatch_partition_and_results_witness :
    (processBatch ⟨"downloads", 2, 3, 100⟩
        (fun _ _ => AttemptBehavior.normal (fun _ => none) [])
        ["idI", "idJ", "idK"] ⟨⟨0, 0, 0, 0⟩, 0, 0, 0⟩).1.map
      ItemResult.extensionId = ["idI", "idJ", "idK"] :=
  (processBatch_partition_and_results 2 (by decide) ["idI", "idJ", "idK"]
    ⟨"downloads", 2, 3, 100⟩
    (fun _ _ => AttemptBehavior.normal (fun _ => none) [])
    ⟨⟨0, 0, 0, 0⟩, 0, 0, 0⟩ rfl).2.2.2.2.2.1

/-! C7: the checkpoint policy after each batch. -/

/-- C7: after a batch, a checkpoint is persisted iff the number of results
since the last checkpoint reaches the interval, in which case the marker
advances to the current result count and the written counter grows by one
(otherwise both are unchanged); with interval 4 over 5 identifiers at
concurrency 2, `processBatch` writes exactly one checkpoint. -/
theorem processBatch_checkpoint_policy (interval n lastCp written : Nat) :
    ((checkpointUpdate interval n lastCp written).2 = written + 1 ↔
      interval ≤ n - lastCp) ∧
    (interval ≤ n - lastCp →
      (checkpointUpdate interval n lastCp written).1 = n ∧
      (checkpointUpdate interval n lastCp written).2 = written + 1) ∧
    (¬interval ≤ n - lastCp →
      (checkpointUpdate interval n lastCp written).1 = lastCp ∧
      (checkpointUpdate interval n lastCp written).2 = written) ∧
    (∀ (a b c d e : String) (cfg : Config)
        (env : String → Nat → AttemptBehavior) (st : BatchState),
      cfg.concurrency = 2 → cfg.checkpointInterval = 4 →
      st.lastCheckpoint = 0 → st.checkpointsWritten = 0 →
      (processBatch cfg env [a, b, c, d, e] st).2.checkpointsWritten = 1) := by
  refine ⟨?_, ?_, ?_, ?_⟩
  · unfold checkpointUpdate
    split
    · rename_i h; simpa using h
    · rename_i h; simpa using h
  · intro h; simp [checkpointUpdate, h]
  · intro h; simp [checkpointUpdate, h]
  · intro a b c d e cfg env st h2 h4 hl hw
    have hb : makeBatches 2 [a, b, c, d, e] = [[a, b], [c, d], [e]] := by
      simp [makeBatches]
    rw [processBatch, h2, hb]
    simp only [processBatchesLoop, List.length_append, List.nil_append,
      processItems_length, List.length_cons, List.length_nil, h4, hl, hw]
    norm_num [checkpointUpdate]

/-- Witness for C7: a concrete five-identifier run at concurrency 2 and
interval 4 writes exactly one checkpoint. -/
theorem processBatch_checkpoint_policy_witness :
    (processBatch ⟨"downloads", 2, 3, 4⟩
        (fun _ _ => AttemptBehavior.normal (fun _ => none) [])
        ["v", "w", "x", "y", "z"]
        ⟨⟨0, 0, 0, 0⟩, 0, 0, 0⟩).2.checkpointsWritten = 1 :=
  (processBatch_checkpoint_policy 4 2 0 0).2.2.2 "v" "w" "x" "y" "z"
    ⟨"downloads", 2, 3, 4⟩
    (fun _ _ => AttemptBehavior.normal (fun _ => none) [])
    ⟨⟨0, 0, 0, 0⟩, 0, 0, 0⟩ rfl rfl rfl rfl

/-! C8: idempotence of a second run over existing valid artifacts. -/

theorem downloadExtension_skips (dir id : String) (retryAttempts : Nat)
    (behaviors : Nat → AttemptBehavior) (stats : RunStats)
    (fs : String → Option Nat) (outs : List StrategyOutcome)
    (hb : behaviors 1 = AttemptBehavior.normal fs outs)
    (hu : usableSize (fs (expectedFile dir id)) = true) :
    downloadExtension dir id retryAttempts behaviors stats =
      ⟨⟨id, Status.skipped, some (expectedFile dir id),
          fs (expectedFile dir id)⟩,
        { stats with skipped := stats.skipped + 1 }, 1, 0⟩ := by
  simp [downloadExtension, downloadLoop, runAttempt, hb, hu]

theorem processItems_all_skipped (cfg : Config)
    (env : String → Nat → AttemptBehavior) :
    ∀ (ids : List String) (stats : RunStats),
      (∀ id ∈ ids, ∃ fs outs, env id 1 = AttemptBehavior.normal fs outs ∧
          usableSize (fs (expectedFile cfg.downloadDir id)) = true) →
      (∀ r ∈ (processItems cfg env ids stats).1,
          r.status = Status.skipped) ∧
      (processItems cfg env ids stats).2.2 = 0 := by
  intro ids
  induction ids with
  | nil => intro stats h; simp [processItems]
  | cons id rest ih =>
    intro stats h
    obtain ⟨fs, outs, hb, hu⟩ := h id (List.mem_cons_self _ _)
    have hd := downloadExtension_skips cfg.downloadDir id cfg.retryAttempts
      (env id) stats fs outs hb hu
    simp only [processItems, hd]
    refine ⟨?_, ?_⟩
    · intro r hr
      rcases List.mem_cons.mp hr with hre | hre
      · subst hre; rfl
      · exact (ih _ (fun i hi => h i (List.mem_cons_of_mem _ hi))).1 r hre
    · simp [(ih _ (fun i hi => h i (List.mem_cons_of_mem _ hi))).2]

theorem processBatchesLoop_all_skipped (cfg : Config)
    (env : String → Nat → AttemptBehavior) :
    ∀ (batches : List (List String)) (acc : List ItemResult)
      (st : BatchState),
      (∀ id ∈ batches.flatten, ∃ fs outs,
          env id 1 = AttemptBehavior.normal fs outs ∧
          usableSize (fs (expectedFile cfg.downloadDir id)) = true) →
      (∀ r ∈ (processBatchesLoop cfg env batches acc st).1,
          r ∈ acc ∨ r.status = Status.skipped) ∧
      (processBatchesLoop cfg env batches acc st).2.strategyCalls =
        st.strategyCalls := by
  intro batches
  induction batches with
  | nil => intro acc st h; exact ⟨fun r hr => Or.inl hr, rfl⟩
  | cons batch rest ih =>
    intro acc st h
    have hbatch := processItems_all_skipped cfg env batch st.stats
      (fun i hi => h i (by
        simp only [List.flatten_cons]
        exact List.mem_append_left _ hi))
    have hrest : ∀ id ∈ rest.flatten, ∃ fs outs,
        env id 1 = AttemptBehavior.normal fs outs ∧
        usableSize (fs (expectedFile cfg.downloadDir id)) = true :=
      fun i hi => h i (by
        simp only [List.flatten_cons]
        exact List.mem_append_right _ hi)
    simp only [processBatchesLoop]
    refine ⟨fun r hr => ?_, ?_⟩
    · rcases (ih _ _ hrest).1 r hr with hmem | hsk
      · rcases List.mem_append.mp hmem with h1 | h1
        · exact Or.inl h1
        · exact Or.inr (hbatch.1 r h1)
      · exact Or.inr hsk
    · rw [(ih _ _ hrest).2]
      simp [hbatch.2]

/-- C8: when every identifier of the run already has an artifact above the
minimum-size threshold at its deterministic path, `processBatch` yields
`skipped` for every identifier — one result per input identifier — and
issues zero strategy calls, hence zero network calls. -/
theorem processBatch_second_run_all_skipped (cfg : Config)
    (env : String → Nat → AttemptBehavior) (ids : List String)
    (st : BatchState) (hc : 0 < cfg.concurrency)
    (henv : ∀ id ∈ ids, ∃ fs outs,
        env id 1 = AttemptBehavior.normal fs outs ∧
        usableSize (fs (expectedFile cfg.downloadDir id)) = true) :
    (∀ r ∈ (processBatch cfg env ids st).1, r.status = Status.skipped) ∧
    (processBatch cfg env ids st).1.map ItemResult.extensionId = ids ∧
    (processBatch cfg env ids st).2.strategyCalls = st.strategyCalls := by
  have hc' : cfg.concurrency ≠ 0 := by omega
  have hflat := makeBatches_flatten cfg.concurrency hc' ids
  have hall := processBatchesLoop_all_skipped cfg env
    (makeBatches cfg.concurrency ids) [] st (by rw [hflat]; exact henv)
  simp only [processBatch]
  refine ⟨?_, ?_, hall.2⟩
  · intro r hr
    rcases hall.1 r hr with hmem | hsk
    · simp at hmem
    · exact hsk
  · rw [processBatchesLoop_map]
    simp [hflat]

/-- Witness for C8: three identifiers with pre-seeded 9999-byte artifacts
all come back skipped with zero strategy calls. -/
theorem processBatch_second_run_all_skipped_witness :
    (∀ r ∈ (processBatch ⟨"downloads", 2, 3, 100⟩
        (fun _ _ => AttemptBehavior.normal (fun _ => some 9999) [])
        ["ida", "idb", "idc"] ⟨⟨0, 0, 0, 0⟩, 0, 0, 0⟩).1,
      r.status = Status.skipped) ∧
    (processBatch ⟨"downloads", 2, 3, 100⟩
        (fun _ _ => AttemptBehavior.normal (fun _ => some 9999) [])
        ["ida", "idb", "idc"] ⟨⟨0, 0, 0, 0⟩, 0, 0, 0⟩).1.map
      ItemResult.extensionId = ["ida", "idb", "idc"] ∧
    (processBatch ⟨"downloads", 2, 3, 100⟩
        (fun _ _ => AttemptBehavior.normal (fun _ => some 9999) [])
        ["ida", "idb", "idc"] ⟨⟨0, 0, 0, 0⟩, 0, 0, 0⟩).2.strategyCalls = 0 :=
  processBatch_second_run_all_skipped ⟨"downloads", 2, 3, 100⟩
    (fun _ _ => AttemptBehavior.normal (fun _ => some 9999) [])
    ["ida", "idb", "idc"] ⟨⟨0, 0, 0, 0⟩, 0, 0, 0⟩ (by decide)
    (fun _ _ => ⟨fun _ => some 9999, [], rfl, rfl⟩)

end CrxCrawler
